import Mathlib

/-!
Shallow embedding of the reorder_fields assist
(crates/ra_assists/src/handlers/reorder_fields.rs).

The assist reorders the fields of a record literal or record pattern to match
the declaration order of the struct being constructed or matched.  The
embedding models the syntax tree as a finite inductive tree whose nodes carry
a kind, the source text they cover, an identity tag (modelling rowan node
identity, i.e. green pointer plus text range) and their child nodes.  Semantic
path resolution is modelled as a function from path nodes to an optional
resolution; a resolved struct carries its field names in declaration order.
-/

namespace ReorderFields

/-- The slice of ra_syntax SyntaxKind that the assist inspects.  LITERAL,
PATH_EXPR, CALL_EXPR and METHOD_CALL_EXPR stand for the expression kinds
accepted by Expr::cast; OTHER stands for every remaining kind. -/
inductive SyntaxKind where
  | RECORD_LIT
  | RECORD_PAT
  | RECORD_FIELD
  | RECORD_FIELD_PAT
  | BIND_PAT
  | DOT_DOT_PAT
  | NAME_REF
  | NAME
  | PATH
  | LITERAL
  | PATH_EXPR
  | CALL_EXPR
  | METHOD_CALL_EXPR
  | RECORD_FIELD_LIST
  | RECORD_FIELD_PAT_LIST
  | OTHER
deriving DecidableEq, Repr

/-- Kinds on which Expr::cast succeeds (restricted to the kinds present in
this embedding). -/
def SyntaxKind.isExprKind : SyntaxKind → Bool
  | .LITERAL | .PATH_EXPR | .CALL_EXPR | .METHOD_CALL_EXPR => true
  | _ => false

/-- A rowan syntax node: identity tag, kind, covered source text, children.
Equality of two values (including the tag) models the pointer-plus-range
equality of rowan SyntaxNode used by the sorted_fields == fields check. -/
inductive SyntaxNode where
  | node (tag : Nat) (kind : SyntaxKind) (text : String) (children : List SyntaxNode)

/-- Decidable equality of syntax nodes (structural, so that it evaluates in
the kernel). -/
def SyntaxNode.decEq : (a b : SyntaxNode) → Decidable (a = b)
  | .node t1 k1 s1 cs1, .node t2 k2 s2 cs2 =>
    if ht : t1 = t2 then
      if hk : k1 = k2 then
        if hs : s1 = s2 then
          match goList cs1 cs2 with
          | isTrue hcs => isTrue (by rw [ht, hk, hs, hcs])
          | isFalse hcs => isFalse (by intro he; injection he; contradiction)
        else isFalse (by intro he; injection he; contradiction)
      else isFalse (by intro he; injection he; contradiction)
    else isFalse (by intro he; injection he; contradiction)
where goList : (as bs : List SyntaxNode) → Decidable (as = bs)
  | [], [] => isTrue rfl
  | [], _ :: _ => isFalse nofun
  | _ :: _, [] => isFalse nofun
  | a :: as, b :: bs =>
    match SyntaxNode.decEq a b, goList as bs with
    | isTrue h1, isTrue h2 => isTrue (by rw [h1, h2])
    | isFalse h1, _ => isFalse (by intro he; injection he; contradiction)
    | _, isFalse h2 => isFalse (by intro he; injection he; contradiction)

instance : DecidableEq SyntaxNode := SyntaxNode.decEq

def SyntaxNode.tag : SyntaxNode → Nat
  | .node t _ _ _ => t

def SyntaxNode.kind : SyntaxNode → SyntaxKind
  | .node _ k _ _ => k

/-- The source text covered by the node; to_string on an ast node prints it. -/
def SyntaxNode.text : SyntaxNode → String
  | .node _ _ s _ => s

def SyntaxNode.children : SyntaxNode → List SyntaxNode
  | .node _ _ _ cs => cs

/-- hir path resolution outcomes, with a resolved struct carrying its field
names in declaration order (hir::Struct together with Struct::fields). -/
inductive Adt where
  | Struct (fields : List String)
  | Enum
  | Union
deriving DecidableEq, Repr

inductive ModuleDef where
  | Adt (adt : Adt)
  | Function
  | EnumVariant
  | Trait
  | TypeAlias
deriving DecidableEq, Repr

inductive PathResolution where
  | Def (d : ModuleDef)
  | Local
  | TypeParam
  | SelfType
deriving DecidableEq, Repr

/-- The semantic service: Semantics::resolve_path (the database handle of the
source is folded into the resolution function). -/
structure Semantics where
  resolve_path : SyntaxNode → Option PathResolution

/-- The assist context: the chain of syntax nodes covering the cursor offset
(innermost first, used by find_node_at_offset) and the semantic service. -/
structure AssistCtx where
  nodes_at_offset : List SyntaxNode
  sema : Semantics

/-- AssistCtx::find_node_at_offset at type R: the first node at the offset on
which R::cast succeeds, i.e. the first node of R's kind. -/
def find_node_at_offset (ctx : AssistCtx) (k : SyntaxKind) : Option SyntaxNode :=
  ctx.nodes_at_offset.find? (fun n => n.kind == k)

/-- usize::max_value(), the sentinel rank of fields absent from the rank
table. -/
def USIZE_MAX : Nat := 2 ^ 64 - 1

/-- get_fields_kind from the source: the orderable child kinds for each
construct kind. -/
def get_fields_kind (node : SyntaxNode) : List SyntaxKind :=
  match node.kind with
  | .RECORD_LIT => [.RECORD_FIELD]
  | .RECORD_PAT => [.RECORD_FIELD_PAT, .BIND_PAT]
  | _ => []

/-- get_field_name from the source: for a RECORD_FIELD the text of its first
NAME_REF child if any, otherwise the text of its first expression child,
otherwise empty; for a BIND_PAT or RECORD_FIELD_PAT the text of its first
NAME child, otherwise empty; empty for every other kind. -/
def get_field_name (node : SyntaxNode) : String :=
  match node.kind with
  | .RECORD_FIELD =>
    match node.children.find? (fun n => n.kind == .NAME_REF) with
    | some nameRef => nameRef.text
    | none => ((node.children.find? (fun n => n.kind.isExprKind)).map SyntaxNode.text).getD ""
  | .BIND_PAT | .RECORD_FIELD_PAT =>
    ((node.children.find? (fun n => n.kind == .NAME)).map SyntaxNode.text).getD ""
  | _ => ""

/-- get_fields from the source: the grandchildren of the record node (its
children's children, in source order) whose kind is orderable for the record's
kind. -/
def get_fields (record : SyntaxNode) : List SyntaxNode :=
  let kinds := get_fields_kind record
  (record.children.flatMap SyntaxNode.children).filter (fun n => kinds.contains n.kind)

/-- sorted_by_rank from the source: itertools sorted_by_key performs a stable
sort by the key; the embedding uses insertion sort, which is stable (an
element is inserted before every element of equal rank that followed it). -/
def sorted_by_rank (fields : List SyntaxNode) (get_rank : SyntaxNode → Nat) :
    List SyntaxNode :=
  List.insertionSort (fun a b => get_rank a ≤ get_rank b) fields

/-- struct_definition from the source: the resolution must be exactly a struct
definition; the embedding returns the struct's declared field names. -/
def struct_definition (path : SyntaxNode) (sema : Semantics) : Option (List String) :=
  match sema.resolve_path path with
  | some (.Def (.Adt (.Struct fields))) => some fields
  | _ => none

/-- A HashMap built by collect from a pair iterator, observed through get:
a later pair with the same key overwrites an earlier one. -/
def hashMapOfList (entries : List (String × Nat)) : String → Option Nat :=
  entries.foldl (fun m e => fun k => if k = e.1 then some e.2 else m k) (fun _ => none)

/-- The rank table of a struct: each declared field name mapped to its index
in declaration order (the enumerate-then-collect step of
compute_fields_ranks). -/
def structRanks (decls : List String) : String → Option Nat :=
  hashMapOfList (decls.enum.map (fun p => (p.2, p.1)))

/-- compute_fields_ranks from the source. -/
def compute_fields_ranks (path : SyntaxNode) (sema : Semantics) :
    Option (String → Option Nat) :=
  (struct_definition path sema).map structRanks

/-- The rank closure passed to sorted_by_rank inside reorder:
ranks.get(get_field_name(node)) with usize::max_value() as the default. -/
def fieldRank (ranks : String → Option Nat) (node : SyntaxNode) : Nat :=
  (ranks (get_field_name node)).getD USIZE_MAX

/-- The assist value built by ctx.add_assist: the edit pairs handed one by one
to algo::diff (old field node, field node now assigned to its position) and
the target range (the whole record node). -/
structure Assist where
  assist_id : String
  label : String
  edits : List (SyntaxNode × SyntaxNode)
  target : SyntaxNode
deriving DecidableEq

/-- reorder from the source, for one node kind (the generic parameter R is
RECORD_LIT for RecordLit and RECORD_PAT for RecordPat). -/
def reorder (ctx : AssistCtx) (k : SyntaxKind) : Option Assist := do
  let record ← find_node_at_offset ctx k
  let path ← record.children.find? (fun n => n.kind == .PATH)
  let ranks ← compute_fields_ranks path ctx.sema
  let fields := get_fields record
  let sorted_fields := sorted_by_rank fields (fieldRank ranks)
  if sorted_fields = fields then
    none
  else
    some { assist_id := "reorder_fields"
           label := "Reorder record fields"
           edits := fields.zip sorted_fields
           target := record }

/-- reorder_fields from the source: try the record-literal form first, then
the record-pattern form. -/
def reorder_fields (ctx : AssistCtx) : Option Assist :=
  (reorder ctx .RECORD_LIT).orElse (fun _ => reorder ctx .RECORD_PAT)

/-- An item of the rendered construct: an orderable field slot holding the
field's text, or any other token run (brace, separator, rest marker,
comment, whitespace). -/
inductive Item where
  | fieldSlot (text : String)
  | token (text : String)
deriving DecidableEq, Repr

/-- The texts of the field slots of a rendered construct, in document order. -/
def docFieldTexts (doc : List Item) : List String :=
  doc.filterMap (fun it => match it with | .fieldSlot t => some t | .token _ => none)

/-- The non-field tokens of a rendered construct, in document order. -/
def docTokens (doc : List Item) : List String :=
  doc.filterMap (fun it => match it with | .token t => some t | .fieldSlot _ => none)

/-- Modelled from the spec: the external structural-diff primitive algo::diff
and text-edit application are not part of this crate; per the spec, the edit
computed by diffing an old field node against the new node assigned to its
position replaces the slot currently holding the old node's text with the new
node's text and touches nothing else.  Applying the whole accumulated edit
script therefore rewrites the field slots, in document order, to the given
replacement texts, and leaves every other token unchanged. -/
def applyEditScript : List Item → List String → List Item
  | [], _ => []
  | .token t :: rest, ts => .token t :: applyEditScript rest ts
  | .fieldSlot t :: rest, [] => .fieldSlot t :: applyEditScript rest []
  | .fieldSlot _ :: rest, t :: ts => .fieldSlot t :: applyEditScript rest ts

/-! Concrete inputs, used to evaluate the development on closed instances.
They transcribe the scenario of the reorder_struct_fields test:
struct Foo {foo: i32, bar: i32}; Foo {bar: 0, foo: 1}. -/

def demoDecls : List String := ["foo", "bar"]

def demoPath : SyntaxNode := .node 1 .PATH "Foo" []

def demoBarField : SyntaxNode :=
  .node 2 .RECORD_FIELD "bar: 0"
    [.node 3 .NAME_REF "bar" [], .node 4 .LITERAL "0" []]

def demoFooField : SyntaxNode :=
  .node 5 .RECORD_FIELD "foo: 1"
    [.node 6 .NAME_REF "foo" [], .node 7 .LITERAL "1" []]

def demoRecord : SyntaxNode :=
  .node 9 .RECORD_LIT "Foo \x7bbar: 0, foo: 1\x7d"
    [demoPath, .node 8 .RECORD_FIELD_LIST "\x7bbar: 0, foo: 1\x7d" [demoBarField, demoFooField]]

def demoSema : Semantics :=
  ⟨fun n => if n.tag = 1 then some (.Def (.Adt (.Struct demoDecls))) else none⟩

def demoCtx : AssistCtx := ⟨[demoRecord], demoSema⟩

/-- The construct after the first reorder was applied: the same fields in
declaration order, as freshly parsed nodes. -/
def demoFooField2 : SyntaxNode :=
  .node 15 .RECORD_FIELD "foo: 1"
    [.node 16 .NAME_REF "foo" [], .node 17 .LITERAL "1" []]

def demoBarField2 : SyntaxNode :=
  .node 12 .RECORD_FIELD "bar: 0"
    [.node 13 .NAME_REF "bar" [], .node 14 .LITERAL "0" []]

def demoPath2 : SyntaxNode := .node 11 .PATH "Foo" []

def demoRecord2 : SyntaxNode :=
  .node 19 .RECORD_LIT "Foo \x7bfoo: 1, bar: 0\x7d"
    [demoPath2, .node 18 .RECORD_FIELD_LIST "\x7bfoo: 1, bar: 0\x7d" [demoFooField2, demoBarField2]]

def demoSema2 : Semantics :=
  ⟨fun n => if n.tag = 11 then some (.Def (.Adt (.Struct demoDecls))) else none⟩

def demoCtx2 : AssistCtx := ⟨[demoRecord2], demoSema2⟩

/-- A record pattern Foo { baz: 0, ref mut bar, .. } over
struct Foo {foo, bar, baz}, including a rest marker. -/
def demoBazFieldPat : SyntaxNode :=
  .node 22 .RECORD_FIELD_PAT "baz: 0"
    [.node 23 .NAME "baz" [], .node 24 .LITERAL "0" []]

def demoBarBindPat : SyntaxNode :=
  .node 25 .BIND_PAT "ref mut bar" [.node 26 .NAME "bar" []]

def demoRestPat : SyntaxNode := .node 27 .DOT_DOT_PAT ".." []

def demoPatPath : SyntaxNode := .node 21 .PATH "Foo" []

def demoRecordPat : SyntaxNode :=
  .node 29 .RECORD_PAT "Foo \x7b baz: 0, ref mut bar, .. \x7d"
    [demoPatPath,
     .node 28 .RECORD_FIELD_PAT_LIST "\x7b baz: 0, ref mut bar, .. \x7d"
       [demoBazFieldPat, demoBarBindPat, demoRestPat]]

def demoPatSema : Semantics :=
  ⟨fun n => if n.tag = 21 then some (.Def (.Adt (.Struct ["foo", "bar", "baz"]))) else none⟩

def demoPatCtx : AssistCtx := ⟨[demoRecordPat], demoPatSema⟩

/-- A semantic service under which the path resolves to a function, not a
struct. -/
def demoFnSema : Semantics :=
  ⟨fun n => if n.tag = 1 then some (.Def .Function) else none⟩

def demoFnCtx : AssistCtx := ⟨[demoRecord], demoFnSema⟩

/-- A literal whose fields all bear names absent from the struct declaration:
Foo {b: 0, a: 1} over struct Foo {foo, bar}. -/
def demoExtraB : SyntaxNode :=
  .node 32 .RECORD_FIELD "b: 0" [.node 33 .NAME_REF "b" [], .node 34 .LITERAL "0" []]

def demoExtraA : SyntaxNode :=
  .node 35 .RECORD_FIELD "a: 1" [.node 36 .NAME_REF "a" [], .node 37 .LITERAL "1" []]

def demoExtraRecord : SyntaxNode :=
  .node 39 .RECORD_LIT "Foo \x7bb: 0, a: 1\x7d"
    [.node 31 .PATH "Foo" [],
     .node 38 .RECORD_FIELD_LIST "\x7bb: 0, a: 1\x7d" [demoExtraB, demoExtraA]]

def demoExtraSema : Semantics :=
  ⟨fun n => if n.tag = 31 then some (.Def (.Adt (.Struct demoDecls))) else none⟩

def demoExtraCtx : AssistCtx := ⟨[demoExtraRecord], demoExtraSema⟩

/-- The rendered document of demoRecord: field slots interleaved with the
structural tokens around them. -/
def demoDoc : List Item :=
  [.token "Foo \x7b", .fieldSlot "bar: 0", .token ", ", .fieldSlot "foo: 1", .token "\x7d"]

/-- The assist computed on the demo literal (reorder succeeds there, so the
default of getD is never used). -/
def demoAssist : Assist :=
  (reorder demoCtx .RECORD_LIT).getD ⟨"", "", [], demoRecord⟩

/-- A field sequence mixing fields declared in demoDecls with extra fields. -/
def demoMixedFields : List SyntaxNode :=
  [demoBarField, demoExtraB, demoExtraA, demoFooField]

/-- A shorthand record field: no NAME_REF child, only the value expression. -/
def demoShorthandField : SyntaxNode :=
  .node 41 .RECORD_FIELD "foo" [.node 42 .PATH_EXPR "foo" []]

/-- A malformed record field with no recognizable child. -/
def demoEmptyField : SyntaxNode := .node 45 .RECORD_FIELD "@" []

/-- A malformed bind pattern with no NAME child. -/
def demoEmptyBindPat : SyntaxNode := .node 46 .BIND_PAT "_" []

example : get_fields demoRecord = [demoBarField, demoFooField] := by decide
example : get_field_name demoBarField = "bar" := by decide
example : structRanks demoDecls "foo" = some 0 := by decide
example : structRanks demoDecls "bar" = some 1 := by decide
example : structRanks demoDecls "baz" = none := by decide
example :
    sorted_by_rank (get_fields demoRecord) (fieldRank (structRanks demoDecls))
      = [demoFooField, demoBarField] := by decide
example : reorder demoCtx .RECORD_LIT
    = some ⟨"reorder_fields", "Reorder record fields",
            [(demoBarField, demoFooField), (demoFooField, demoBarField)], demoRecord⟩ := by
  decide
example : reorder demoCtx2 .RECORD_LIT = none := by decide
example : reorder demoFnCtx .RECORD_LIT = none := by decide
example : reorder demoExtraCtx .RECORD_LIT = none := by decide
example : get_fields demoRecordPat = [demoBazFieldPat, demoBarBindPat] := by decide
example : reorder demoPatCtx .RECORD_PAT
    = some ⟨"reorder_fields", "Reorder record fields",
            [(demoBazFieldPat, demoBarBindPat), (demoBarBindPat, demoBazFieldPat)],
            demoRecordPat⟩ := by decide
example : reorder_fields demoPatCtx = reorder demoPatCtx .RECORD_PAT := by decide

/-! Lemmas about the sort, the rank table, the edit application and the
shape of reorder. -/

theorem sorted_by_rank_pairwise (l : List SyntaxNode) (r : SyntaxNode → Nat) :
    (sorted_by_rank l r).Pairwise (fun a b => r a ≤ r b) := by
  have : IsTotal SyntaxNode (fun a b => r a ≤ r b) := ⟨fun a b => Nat.le_total _ _⟩
  have : IsTrans SyntaxNode (fun a b => r a ≤ r b) := ⟨fun a b c => Nat.le_trans⟩
  exact List.sorted_insertionSort _ l

theorem sorted_by_rank_perm (l : List SyntaxNode) (r : SyntaxNode → Nat) :
    (sorted_by_rank l r).Perm l :=
  List.perm_insertionSort _ l

theorem sorted_by_rank_of_pairwise (l : List SyntaxNode) (r : SyntaxNode → Nat)
    (h : l.Pairwise (fun a b => r a ≤ r b)) : sorted_by_rank l r = l :=
  List.Sorted.insertionSort_eq h

theorem filter_orderedInsert_rank_ne (r : SyntaxNode → Nat) (n : Nat) (x : SyntaxNode)
    (hx : ¬ r x = n) (s : List SyntaxNode) :
    (List.orderedInsert (fun a b => r a ≤ r b) x s).filter (fun f => r f == n)
      = s.filter (fun f => r f == n) := by
  induction s with
  | nil => simp [List.orderedInsert, hx]
  | cons y l ih =>
    by_cases hle : r x ≤ r y
    · simp [List.orderedInsert, hle, hx]
    · simp only [List.orderedInsert, if_neg hle, List.filter_cons]
      rw [ih]

theorem filter_orderedInsert_rank_eq (r : SyntaxNode → Nat) (n : Nat) (x : SyntaxNode)
    (hx : r x = n) (s : List SyntaxNode) :
    (List.orderedInsert (fun a b => r a ≤ r b) x s).filter (fun f => r f == n)
      = x :: s.filter (fun f => r f == n) := by
  induction s with
  | nil => simp [List.orderedInsert, hx]
  | cons y l ih =>
    by_cases hle : r x ≤ r y
    · rw [List.orderedInsert, if_pos hle]
      simp [List.filter_cons, hx]
    · have hy : (r y == n) = false := by simp; omega
      rw [List.orderedInsert, if_neg hle]
      simp only [List.filter_cons]
      rw [ih]
      simp [hy]

/-- Stability of the sort: the subsequence of fields having any fixed rank is
untouched by sorting. -/
theorem sorted_by_rank_filter_rank (l : List SyntaxNode) (r : SyntaxNode → Nat) (n : Nat) :
    (sorted_by_rank l r).filter (fun f => r f == n) = l.filter (fun f => r f == n) := by
  induction l with
  | nil => rfl
  | cons x xs ih =>
    show (List.orderedInsert _ x (List.insertionSort _ xs)).filter _ = _
    by_cases hx : r x = n
    · rw [filter_orderedInsert_rank_eq r n x hx]
      rw [show List.insertionSort (fun a b => r a ≤ r b) xs = sorted_by_rank xs r from rfl, ih]
      simp [List.filter_cons, hx]
    · rw [filter_orderedInsert_rank_ne r n x hx]
      rw [show List.insertionSort (fun a b => r a ≤ r b) xs = sorted_by_rank xs r from rfl, ih]
      simp [List.filter_cons, hx]

theorem hashMapOfList_mem (entries : List (String × Nat)) (k : String) (v : Nat) :
    ∀ m : String → Option Nat,
      (entries.foldl (fun m e => fun k => if k = e.1 then some e.2 else m k) m) k = some v →
      (k, v) ∈ entries ∨ m k = some v := by
  induction entries with
  | nil => intro m h; exact Or.inr h
  | cons e es ih =>
    intro m h
    rcases ih _ h with h1 | h1
    · exact Or.inl (List.mem_cons_of_mem _ h1)
    · have h2 : (if k = e.1 then some e.2 else m k) = some v := h1
      by_cases hk : k = e.1
      · rw [if_pos hk] at h2
        left
        have : (k, v) = e := by
          cases e
          simp only [Option.some.injEq] at h2
          simp_all
        rw [this]
        exact List.mem_cons_self _ _
      · rw [if_neg hk] at h2
        exact Or.inr h2

/-- A rank produced by the rank table is the index of the looked-up name in
the declaration list. -/
theorem structRanks_getElem? (decls : List String) (k : String) (i : Nat)
    (h : structRanks decls k = some i) : decls[i]? = some k := by
  have h2 : (List.foldl (fun m e => fun k2 => if k2 = e.1 then some e.2 else m k2)
      (fun _ => none) (decls.enum.map (fun p => (p.2, p.1)))) k = some i := h
  have hmem := hashMapOfList_mem (decls.enum.map (fun p => (p.2, p.1))) k i (fun _ => none) h2
  rcases hmem with hmem | hmem
  · rcases List.mem_map.mp hmem with ⟨p, hp, hpe⟩
    have : p = (i, k) := by
      cases p
      simp only [Prod.mk.injEq] at hpe
      simp_all
    rw [this] at hp
    exact List.mk_mem_enum_iff_getElem?.mp hp
  · cases hmem

theorem structRanks_lt_length (decls : List String) (k : String) (i : Nat)
    (h : structRanks decls k = some i) : i < decls.length := by
  have := structRanks_getElem? decls k i h
  by_contra hlt
  rw [List.getElem?_eq_none (by omega)] at this
  cases this

theorem docFieldTexts_cons_token (t : String) (rest : List Item) :
    docFieldTexts (Item.token t :: rest) = docFieldTexts rest := rfl

theorem docFieldTexts_cons_field (t : String) (rest : List Item) :
    docFieldTexts (Item.fieldSlot t :: rest) = t :: docFieldTexts rest := rfl

theorem docTokens_cons_token (t : String) (rest : List Item) :
    docTokens (Item.token t :: rest) = t :: docTokens rest := rfl

theorem docTokens_cons_field (t : String) (rest : List Item) :
    docTokens (Item.fieldSlot t :: rest) = docTokens rest := rfl

theorem docTokens_applyEditScript (doc : List Item) :
    ∀ ts, docTokens (applyEditScript doc ts) = docTokens doc := by
  induction doc with
  | nil => intro ts; rfl
  | cons it rest ih =>
    intro ts
    cases it with
    | token t =>
      show docTokens (Item.token t :: applyEditScript rest ts) = _
      rw [docTokens_cons_token, docTokens_cons_token, ih]
    | fieldSlot t =>
      cases ts with
      | nil =>
        show docTokens (Item.fieldSlot t :: applyEditScript rest []) = _
        rw [docTokens_cons_field, docTokens_cons_field, ih]
      | cons t2 ts2 =>
        show docTokens (Item.fieldSlot t2 :: applyEditScript rest ts2) = _
        rw [docTokens_cons_field, docTokens_cons_field, ih]

theorem docFieldTexts_applyEditScript (doc : List Item) :
    ∀ ts, ts.length ≤ (docFieldTexts doc).length →
      docFieldTexts (applyEditScript doc ts) = ts ++ (docFieldTexts doc).drop ts.length := by
  induction doc with
  | nil =>
    intro ts h
    have hts : ts = [] := List.length_eq_zero.mp (Nat.le_zero.mp h)
    subst hts
    rfl
  | cons it rest ih =>
    intro ts h
    cases it with
    | token t =>
      show docFieldTexts (Item.token t :: applyEditScript rest ts) = _
      simp only [docFieldTexts_cons_token] at h ⊢
      exact ih ts h
    | fieldSlot t =>
      cases ts with
      | nil =>
        show docFieldTexts (Item.fieldSlot t :: applyEditScript rest []) = _
        simp only [docFieldTexts_cons_field]
        rw [ih [] (Nat.zero_le _)]
        simp
      | cons t2 ts2 =>
        show docFieldTexts (Item.fieldSlot t2 :: applyEditScript rest ts2) = _
        simp only [docFieldTexts_cons_field, List.length_cons] at h ⊢
        rw [ih ts2 (Nat.le_of_succ_le_succ h)]
        simp

/-- The shape of reorder once the record, the path and the rank table are
fixed: a no-op check followed by the zip of the original and sorted field
lists. -/
theorem reorder_eq (ctx : AssistCtx) (k : SyntaxKind) (record path : SyntaxNode)
    (ranks : String → Option Nat)
    (hrec : find_node_at_offset ctx k = some record)
    (hpath : record.children.find? (fun n => n.kind == .PATH) = some path)
    (hranks : compute_fields_ranks path ctx.sema = some ranks) :
    reorder ctx k =
      if sorted_by_rank (get_fields record) (fieldRank ranks) = get_fields record then
        none
      else
        some ⟨"reorder_fields", "Reorder record fields",
              (get_fields record).zip (sorted_by_rank (get_fields record) (fieldRank ranks)),
              record⟩ := by
  simp only [reorder, hrec, hpath, hranks, Option.bind_eq_bind, Option.some_bind]

/-- C1: for every construct whose type reference resolves to a struct with
declared field names decls, in the planner's output sequence the subsequence
of fields whose extraction key equals a declared field name appears in exactly
the declaration order of those names: along the output, the declaration
indices of the ranked fields are nondecreasing, and the rank of a ranked
field is precisely the index at which its key is declared. -/
theorem reorder_order_invariant (record : SyntaxNode) (decls : List String)
    (f : SyntaxNode) (i : Nat)
    (hf : f ∈ sorted_by_rank (get_fields record) (fieldRank (structRanks decls)))
    (hi : structRanks decls (get_field_name f) = some i) :
    (((sorted_by_rank (get_fields record) (fieldRank (structRanks decls))).filter
        (fun g => (structRanks decls (get_field_name g)).isSome)).map
      (fieldRank (structRanks decls))).Pairwise (· ≤ ·)
    ∧ fieldRank (structRanks decls) f = i
    ∧ decls[i]? = some (get_field_name f) := by
  refine ⟨?_, ?_, ?_⟩
  · exact List.pairwise_map.mpr ((sorted_by_rank_pairwise _ _).filter _)
  · simp [fieldRank, hi]
  · exact structRanks_getElem? _ _ _ hi

theorem reorder_order_invariant_witness :
    demoFooField ∈ sorted_by_rank (get_fields demoRecord) (fieldRank (structRanks demoDecls))
    ∧ structRanks demoDecls (get_field_name demoFooField) = some 0
    ∧ ((((sorted_by_rank (get_fields demoRecord) (fieldRank (structRanks demoDecls))).filter
          (fun g => (structRanks demoDecls (get_field_name g)).isSome)).map
        (fieldRank (structRanks demoDecls))).Pairwise (· ≤ ·)
      ∧ fieldRank (structRanks demoDecls) demoFooField = 0
      ∧ demoDecls[0]? = some (get_field_name demoFooField)) :=
  ⟨by decide, by decide,
   reorder_order_invariant demoRecord demoDecls demoFooField 0 (by decide) (by decide)⟩

/-- C2: for every classified field sequence and rank table whose ranks are
below the sentinel, every unranked field is placed after every ranked field in
the sorted output (once a field with no rank-table entry appears, every later
field also has none), and the sort is stable: for every rank value, the
subsequence of fields having that rank — in particular the unranked fields,
which all share the sentinel rank — is the same before and after sorting. -/
theorem sorted_by_rank_stable (fields : List SyntaxNode) (ranks : String → Option Nat)
    (hbound : ∀ name i, ranks name = some i → i < USIZE_MAX) :
    ((sorted_by_rank fields (fieldRank ranks)).Pairwise (fun f g =>
        ranks (get_field_name f) = none → ranks (get_field_name g) = none))
    ∧ ∀ n, (sorted_by_rank fields (fieldRank ranks)).filter
          (fun f => fieldRank ranks f == n)
        = fields.filter (fun f => fieldRank ranks f == n) := by
  constructor
  · have hp := sorted_by_rank_pairwise fields (fieldRank ranks)
    refine hp.imp ?_
    intro a b hab hna
    rcases hb : ranks (get_field_name b) with _ | j
    · rfl
    · exfalso
      have hja : fieldRank ranks a = USIZE_MAX := by simp [fieldRank, hna]
      have hjb : fieldRank ranks b = j := by simp [fieldRank, hb]
      have := hbound _ _ hb
      omega
  · intro n
    exact sorted_by_rank_filter_rank fields (fieldRank ranks) n

theorem sorted_by_rank_stable_witness :
    ((sorted_by_rank demoMixedFields (fieldRank (structRanks demoDecls))).Pairwise (fun f g =>
        structRanks demoDecls (get_field_name f) = none →
        structRanks demoDecls (get_field_name g) = none))
    ∧ (sorted_by_rank demoMixedFields (fieldRank (structRanks demoDecls))).filter
          (fun f => fieldRank (structRanks demoDecls) f == USIZE_MAX)
        = demoMixedFields.filter
            (fun f => fieldRank (structRanks demoDecls) f == USIZE_MAX) :=
  ⟨(sorted_by_rank_stable demoMixedFields (structRanks demoDecls)
      (fun name i h => Nat.lt_of_lt_of_le (structRanks_lt_length _ _ _ h)
        (by norm_num [demoDecls, USIZE_MAX]))).1,
   (sorted_by_rank_stable demoMixedFields (structRanks demoDecls)
      (fun name i h => Nat.lt_of_lt_of_le (structRanks_lt_length _ _ _ h)
        (by norm_num [demoDecls, USIZE_MAX]))).2 USIZE_MAX⟩

/-- C3: the assist is idempotent.  If an invocation produced an assist, then
on a second invocation that finds the resulting construct — whose field
sequence carries, position by position, the keys of the first invocation's
sorted output — with the type reference resolving to the same struct
declaration, the second sorted sequence equals its own original sequence and
reorder returns none (NotApplicable). -/
theorem reorder_idempotent (ctx ctx2 : AssistCtx) (k : SyntaxKind)
    (record record2 path path2 : SyntaxNode) (decls : List String)
    (hrec : find_node_at_offset ctx k = some record)
    (hpath : record.children.find? (fun n => n.kind == .PATH) = some path)
    (hres : struct_definition path ctx.sema = some decls)
    (hfirst : (reorder ctx k).isSome)
    (hrec2 : find_node_at_offset ctx2 k = some record2)
    (hpath2 : record2.children.find? (fun n => n.kind == .PATH) = some path2)
    (hres2 : struct_definition path2 ctx2.sema = some decls)
    (hkeys : (get_fields record2).map get_field_name
      = (sorted_by_rank (get_fields record) (fieldRank (structRanks decls))).map
          get_field_name) :
    reorder ctx2 k = none := by
  have hranks2 : compute_fields_ranks path2 ctx2.sema = some (structRanks decls) := by
    simp [compute_fields_ranks, hres2]
  have hmap1 : ((sorted_by_rank (get_fields record) (fieldRank (structRanks decls))).map
      get_field_name).Pairwise (fun n1 n2 =>
        (structRanks decls n1).getD USIZE_MAX ≤ (structRanks decls n2).getD USIZE_MAX) :=
    List.pairwise_map.mpr (sorted_by_rank_pairwise (get_fields record)
      (fieldRank (structRanks decls)))
  rw [← hkeys] at hmap1
  have hp2' := List.pairwise_map.mp hmap1
  have hp2 : (get_fields record2).Pairwise (fun a b =>
      fieldRank (structRanks decls) a ≤ fieldRank (structRanks decls) b) := hp2'
  rw [reorder_eq ctx2 k record2 path2 (structRanks decls) hrec2 hpath2 hranks2]
  rw [sorted_by_rank_of_pairwise _ _ hp2]
  simp

theorem reorder_idempotent_witness : reorder demoCtx2 .RECORD_LIT = none :=
  reorder_idempotent demoCtx demoCtx2 .RECORD_LIT demoRecord demoRecord2 demoPath demoPath2
    demoDecls (by decide) (by decide) (by decide) (by decide) (by decide) (by decide)
    (by decide) (by decide)

/-- C4: when the construct's type reference does not resolve to exactly a
struct definition — whatever else it resolves to, or nothing — reorder
returns none and emits no edit. -/
theorem reorder_unresolved_none (ctx : AssistCtx) (k : SyntaxKind)
    (record path : SyntaxNode)
    (hrec : find_node_at_offset ctx k = some record)
    (hpath : record.children.find? (fun n => n.kind == .PATH) = some path)
    (hres : ∀ decls, ctx.sema.resolve_path path
      ≠ some (PathResolution.Def (ModuleDef.Adt (Adt.Struct decls)))) :
    reorder ctx k = none := by
  have hsd : struct_definition path ctx.sema = none := by
    unfold struct_definition
    split
    · rename_i fs heq
      exact absurd heq (hres fs)
    · rfl
  have hranks : compute_fields_ranks path ctx.sema = none := by
    simp [compute_fields_ranks, hsd]
  simp [reorder, hrec, hpath, hranks]

theorem reorder_unresolved_none_witness : reorder demoFnCtx .RECORD_LIT = none :=
  reorder_unresolved_none demoFnCtx .RECORD_LIT demoRecord demoPath (by decide) (by decide)
    (fun _ h => nomatch h)

/-- C5: with the record found, a path child present and the rank table
computed, the planner returns none exactly when the stably sorted field
sequence equals the original sequence of field nodes; in particular a
construct with zero orderable fields yields none. -/
theorem reorder_none_iff (ctx : AssistCtx) (k : SyntaxKind) (record path : SyntaxNode)
    (ranks : String → Option Nat)
    (hrec : find_node_at_offset ctx k = some record)
    (hpath : record.children.find? (fun n => n.kind == .PATH) = some path)
    (hranks : compute_fields_ranks path ctx.sema = some ranks) :
    (reorder ctx k = none ↔
      sorted_by_rank (get_fields record) (fieldRank ranks) = get_fields record)
    ∧ (get_fields record = [] → reorder ctx k = none) := by
  rw [reorder_eq ctx k record path ranks hrec hpath hranks]
  constructor
  · by_cases h : sorted_by_rank (get_fields record) (fieldRank ranks) = get_fields record
    · simp [h]
    · simp [h]
  · intro h0
    rw [h0]
    simp [sorted_by_rank, List.insertionSort]

theorem reorder_none_iff_witness : reorder demoCtx2 SyntaxKind.RECORD_LIT = none :=
  (reorder_none_iff demoCtx2 .RECORD_LIT demoRecord2 demoPath2 (structRanks demoDecls)
      (by decide) (by decide) rfl).1.mpr (by decide)

theorem get_field_name_eq_record_field (t : Nat) (s : String) (cs : List SyntaxNode) :
    get_field_name (.node t .RECORD_FIELD s cs)
      = match cs.find? (fun n => n.kind == .NAME_REF) with
        | some nameRef => nameRef.text
        | none => ((cs.find? (fun n => n.kind.isExprKind)).map SyntaxNode.text).getD "" := rfl

theorem get_field_name_eq_bind_pat (t : Nat) (s : String) (cs : List SyntaxNode) :
    get_field_name (.node t .BIND_PAT s cs)
      = ((cs.find? (fun n => n.kind == .NAME)).map SyntaxNode.text).getD "" := rfl

theorem get_field_name_eq_record_field_pat (t : Nat) (s : String) (cs : List SyntaxNode) :
    get_field_name (.node t .RECORD_FIELD_PAT s cs)
      = ((cs.find? (fun n => n.kind == .NAME)).map SyntaxNode.text).getD "" := rfl

/-- C6: key extraction per construct kind.  For a value-construction explicit
field the key is the text of its name-reference child when one is present,
and otherwise the text of its value sub-expression (shorthand fields); for a
destructuring-pattern bound or renamed field the key is the bound name
child's text. -/
theorem get_field_name_keys (node : SyntaxNode) :
    (node.kind = .RECORD_FIELD →
      (∀ nr, node.children.find? (fun n => n.kind == .NAME_REF) = some nr →
        get_field_name node = nr.text)
      ∧ (node.children.find? (fun n => n.kind == .NAME_REF) = none →
          ∀ e, node.children.find? (fun n => n.kind.isExprKind) = some e →
            get_field_name node = e.text))
    ∧ ((node.kind = .BIND_PAT ∨ node.kind = .RECORD_FIELD_PAT) →
        ∀ nm, node.children.find? (fun n => n.kind == .NAME) = some nm →
          get_field_name node = nm.text) := by
  rcases node with ⟨t, k, s, cs⟩
  constructor
  · intro hk
    simp only [SyntaxNode.kind] at hk
    subst hk
    constructor
    · intro nr hnr
      simp only [SyntaxNode.children] at hnr
      rw [get_field_name_eq_record_field, hnr]
    · intro hnone e he
      simp only [SyntaxNode.children] at hnone he
      rw [get_field_name_eq_record_field, hnone, he]
      rfl
  · intro hk nm hnm
    simp only [SyntaxNode.children] at hnm
    simp only [SyntaxNode.kind] at hk
    rcases hk with hk | hk
    · subst hk
      rw [get_field_name_eq_bind_pat, hnm]
      rfl
    · subst hk
      rw [get_field_name_eq_record_field_pat, hnm]
      rfl

theorem get_field_name_keys_witness :
    get_field_name demoBarField = "bar"
    ∧ get_field_name demoShorthandField = "foo"
    ∧ get_field_name demoBarBindPat = "bar" :=
  ⟨((get_field_name_keys demoBarField).1 (by decide)).1
      (.node 3 .NAME_REF "bar" []) (by decide),
   ((get_field_name_keys demoShorthandField).1 (by decide)).2 (by decide)
      (.node 42 .PATH_EXPR "foo" []) (by decide),
   (get_field_name_keys demoBarBindPat).2 (Or.inl (by decide))
      (.node 26 .NAME "bar" []) (by decide)⟩

theorem dot_dot_pat_not_orderable (record : SyntaxNode) :
    SyntaxKind.DOT_DOT_PAT ∉ get_fields_kind record := by
  rcases record with ⟨t, k, s, cs⟩
  cases k <;> simp [get_fields_kind, SyntaxNode.kind]

/-- C7: field enumeration returns exactly the grandchildren of the recognized
orderable kinds for the construct's variant (RECORD_FIELD for a literal;
RECORD_FIELD_PAT or BIND_PAT for a pattern), preserving source left-to-right
order (the result is a sublist of the grandchildren), and excludes every node
of any other kind — in particular the rest marker. -/
theorem get_fields_enumeration (record : SyntaxNode) :
    (record.kind = .RECORD_LIT →
      get_fields record = (record.children.flatMap SyntaxNode.children).filter
        (fun n => n.kind == .RECORD_FIELD))
    ∧ (record.kind = .RECORD_PAT →
      get_fields record = (record.children.flatMap SyntaxNode.children).filter
        (fun n => n.kind == .RECORD_FIELD_PAT || n.kind == .BIND_PAT))
    ∧ (get_fields record).Sublist (record.children.flatMap SyntaxNode.children)
    ∧ ∀ n ∈ get_fields record, n.kind ∈ get_fields_kind record ∧ n.kind ≠ .DOT_DOT_PAT := by
  refine ⟨?_, ?_, ?_, ?_⟩
  · intro hk
    unfold get_fields
    rw [show get_fields_kind record = [.RECORD_FIELD] by
      rcases record with ⟨t, k, s, cs⟩
      simp only [SyntaxNode.kind] at hk
      subst hk
      rfl]
    apply List.filter_congr
    intro x hx
    generalize x.kind = kk
    cases kk <;> rfl
  · intro hk
    unfold get_fields
    rw [show get_fields_kind record = [.RECORD_FIELD_PAT, .BIND_PAT] by
      rcases record with ⟨t, k, s, cs⟩
      simp only [SyntaxNode.kind] at hk
      subst hk
      rfl]
    apply List.filter_congr
    intro x hx
    generalize x.kind = kk
    cases kk <;> rfl
  · exact List.filter_sublist _
  · intro n hn
    have hn2 : n ∈ (record.children.flatMap SyntaxNode.children).filter
        (fun m => (get_fields_kind record).contains m.kind) := hn
    have hmem : n.kind ∈ get_fields_kind record :=
      List.mem_of_elem_eq_true (List.mem_filter.mp hn2).2
    exact ⟨hmem, fun he => dot_dot_pat_not_orderable record (he ▸ hmem)⟩

theorem get_fields_enumeration_witness :
    get_fields demoRecordPat
      = ((demoRecordPat.children.flatMap SyntaxNode.children).filter
          (fun n => n.kind == .RECORD_FIELD_PAT || n.kind == .BIND_PAT))
    ∧ (get_fields demoRecordPat).Sublist (demoRecordPat.children.flatMap SyntaxNode.children)
    ∧ (demoBazFieldPat.kind ∈ get_fields_kind demoRecordPat
        ∧ demoBazFieldPat.kind ≠ .DOT_DOT_PAT) :=
  ⟨(get_fields_enumeration demoRecordPat).2.1 (by decide),
   (get_fields_enumeration demoRecordPat).2.2.1,
   (get_fields_enumeration demoRecordPat).2.2.2 demoBazFieldPat (by decide)⟩

/-- C9: key extraction is total and never aborts; a field node with neither a
name-reference nor a recognized name or expression child, and a node of an
unrecognized kind, yield the empty string, so malformed input degrades to a
not-applicable outcome instead of a failure. -/
theorem get_field_name_total (node : SyntaxNode) :
    (node.kind ≠ .RECORD_FIELD → node.kind ≠ .BIND_PAT → node.kind ≠ .RECORD_FIELD_PAT →
      get_field_name node = "")
    ∧ (node.kind = .RECORD_FIELD →
        node.children.find? (fun n => n.kind == .NAME_REF) = none →
        node.children.find? (fun n => n.kind.isExprKind) = none →
        get_field_name node = "")
    ∧ ((node.kind = .BIND_PAT ∨ node.kind = .RECORD_FIELD_PAT) →
        node.children.find? (fun n => n.kind == .NAME) = none →
        get_field_name node = "") := by
  rcases node with ⟨t, k, s, cs⟩
  refine ⟨?_, ?_, ?_⟩
  · intro h1 h2 h3
    simp only [SyntaxNode.kind] at h1 h2 h3
    cases k
    case RECORD_FIELD => exact absurd rfl h1
    case BIND_PAT => exact absurd rfl h2
    case RECORD_FIELD_PAT => exact absurd rfl h3
    all_goals rfl
  · intro hk h1 h2
    simp only [SyntaxNode.kind] at hk
    subst hk
    simp only [SyntaxNode.children] at h1 h2
    rw [get_field_name_eq_record_field, h1, h2]
    rfl
  · intro hk h1
    simp only [SyntaxNode.kind] at hk
    simp only [SyntaxNode.children] at h1
    rcases hk with hk | hk
    · subst hk
      rw [get_field_name_eq_bind_pat, h1]
      rfl
    · subst hk
      rw [get_field_name_eq_record_field_pat, h1]
      rfl

theorem get_field_name_total_witness :
    get_field_name demoRestPat = ""
    ∧ get_field_name demoEmptyField = ""
    ∧ get_field_name demoEmptyBindPat = "" :=
  ⟨(get_field_name_total demoRestPat).1 (by decide) (by decide) (by decide),
   (get_field_name_total demoEmptyField).2.1 (by decide) (by decide) (by decide),
   (get_field_name_total demoEmptyBindPat).2.2 (Or.inl (by decide)) (by decide)⟩

/-- C8: when an assist is produced, its edits are the per-position pairs of
the original field node and the field node assigned to that position, its
target is the construct node, and applying the edit script to any rendering
of the construct rewrites the field slots to exactly the planner's sorted
output while leaving every non-field token byte-identical. -/
theorem reorder_edit_script_spec (ctx : AssistCtx) (k : SyntaxKind)
    (record path : SyntaxNode) (ranks : String → Option Nat) (a : Assist) (doc : List Item)
    (hrec : find_node_at_offset ctx k = some record)
    (hpath : record.children.find? (fun n => n.kind == .PATH) = some path)
    (hranks : compute_fields_ranks path ctx.sema = some ranks)
    (hout : reorder ctx k = some a)
    (hdoc : docFieldTexts doc = (get_fields record).map SyntaxNode.text) :
    a.edits = (get_fields record).zip (sorted_by_rank (get_fields record) (fieldRank ranks))
    ∧ a.target = record
    ∧ docFieldTexts (applyEditScript doc (a.edits.map (fun e => e.2.text)))
        = (sorted_by_rank (get_fields record) (fieldRank ranks)).map SyntaxNode.text
    ∧ docTokens (applyEditScript doc (a.edits.map (fun e => e.2.text))) = docTokens doc := by
  rw [reorder_eq ctx k record path ranks hrec hpath hranks] at hout
  by_cases hif : sorted_by_rank (get_fields record) (fieldRank ranks) = get_fields record
  · rw [if_pos hif] at hout
    cases hout
  · rw [if_neg hif] at hout
    have ha : a = ⟨"reorder_fields", "Reorder record fields",
        (get_fields record).zip (sorted_by_rank (get_fields record) (fieldRank ranks)),
        record⟩ := by
      cases hout
      rfl
    subst ha
    have hlen : (sorted_by_rank (get_fields record) (fieldRank ranks)).length
        = (get_fields record).length := (sorted_by_rank_perm _ _).length_eq
    have hmapsnd : (((get_fields record).zip
          (sorted_by_rank (get_fields record) (fieldRank ranks))).map Prod.snd)
        = sorted_by_rank (get_fields record) (fieldRank ranks) :=
      List.map_snd_zip _ _ (le_of_eq hlen)
    have hts : (((get_fields record).zip
          (sorted_by_rank (get_fields record) (fieldRank ranks))).map (fun e => e.2.text))
        = (sorted_by_rank (get_fields record) (fieldRank ranks)).map SyntaxNode.text := by
      have h2 : (((get_fields record).zip
            (sorted_by_rank (get_fields record) (fieldRank ranks))).map Prod.snd).map
              SyntaxNode.text
          = (sorted_by_rank (get_fields record) (fieldRank ranks)).map SyntaxNode.text := by
        rw [hmapsnd]
      rw [List.map_map] at h2
      exact h2
    refine ⟨rfl, rfl, ?_, ?_⟩
    · show docFieldTexts (applyEditScript doc
          ((((get_fields record).zip
            (sorted_by_rank (get_fields record) (fieldRank ranks))).map
              (fun e => e.2.text)))) = _
      rw [hts]
      rw [docFieldTexts_applyEditScript doc _
        (by rw [hdoc]; simp [hlen])]
      rw [hdoc]
      simp [hlen]
    · exact docTokens_applyEditScript doc _

theorem reorder_edit_script_spec_witness :
    demoAssist.edits = (get_fields demoRecord).zip
        (sorted_by_rank (get_fields demoRecord) (fieldRank (structRanks demoDecls)))
    ∧ demoAssist.target = demoRecord
    ∧ docFieldTexts (applyEditScript demoDoc (demoAssist.edits.map (fun e => e.2.text)))
        = (sorted_by_rank (get_fields demoRecord) (fieldRank (structRanks demoDecls))).map
            SyntaxNode.text
    ∧ docTokens (applyEditScript demoDoc (demoAssist.edits.map (fun e => e.2.text)))
        = docTokens demoDoc :=
  reorder_edit_script_spec demoCtx .RECORD_LIT demoRecord demoPath (structRanks demoDecls)
    demoAssist demoDoc (by decide) (by decide) rfl (by decide) (by decide)

/-- C10: when no field key of the construct occurs in the rank table, every
field receives the sentinel rank, the stable sort is the identity, and the
assist returns none regardless of the fields' order. -/
theorem reorder_all_unranked_none (ctx : AssistCtx) (k : SyntaxKind)
    (record path : SyntaxNode) (ranks : String → Option Nat)
    (hrec : find_node_at_offset ctx k = some record)
    (hpath : record.children.find? (fun n => n.kind == .PATH) = some path)
    (hranks : compute_fields_ranks path ctx.sema = some ranks)
    (hunranked : ∀ f ∈ get_fields record, ranks (get_field_name f) = none) :
    reorder ctx k = none := by
  rw [reorder_eq ctx k record path ranks hrec hpath hranks]
  have hp : (get_fields record).Pairwise (fun a b =>
      fieldRank ranks a ≤ fieldRank ranks b) := by
    refine List.pairwise_iff_forall_sublist.mpr ?_
    intro a b hab
    have hma : a ∈ get_fields record := hab.subset (by simp)
    have hmb : b ∈ get_fields record := hab.subset (by simp)
    simp [fieldRank, hunranked a hma, hunranked b hmb]
  rw [sorted_by_rank_of_pairwise _ _ hp]
  simp

theorem reorder_all_unranked_none_witness : reorder demoExtraCtx .RECORD_LIT = none :=
  reorder_all_unranked_none demoExtraCtx .RECORD_LIT demoExtraRecord
    (.node 31 .PATH "Foo" []) (structRanks demoDecls) (by decide) (by decide) rfl (by decide)

end ReorderFields
